import Mathlib

/-!
Shallow embedding of the personal-library-api repository: the JSON-file book
store (`src/store.js`), the Express route handlers (`src/server.js`) and the
Ajv validators (`src/validators.js`), together with theorems checking the
repository's specification claims.

Strings are Lean `String`s, but all character-level operations (lower/upper
casing, trimming, lexicographic comparison, substring search) are defined
here over `String.data` so that every definition evaluates inside the kernel.
JSON numbers are modelled as `ℚ` (for `pricePaid`) and `ℤ` (for the integer
field `rating`); absent JSON object properties are `Option.none`.
-/

namespace LibraryApi

/-- Whitespace characters removed by the JS `String.prototype.trim` calls in
`store.js` (the repository only ever trims ASCII whitespace). -/
def jsWsChar (c : Char) : Bool :=
  c = ' ' || c = '\t' || c = '\n' || c = '\r'

/-- JS `s.trim()`: strip leading and trailing whitespace. -/
def jsTrim (s : String) : String :=
  ⟨((s.data.dropWhile jsWsChar).reverse.dropWhile jsWsChar).reverse⟩

/-- Lower-case one character (ASCII, as used by the ISBN/search strings of the
repository; `toLowerCase` in `store.js` and `server.js`). -/
def lowChar (c : Char) : Char :=
  if 65 ≤ c.toNat ∧ c.toNat ≤ 90 then Char.ofNat (c.toNat + 32) else c

/-- Upper-case one character (ASCII), for the `toUpperCase()` ISBN keys. -/
def upChar (c : Char) : Char :=
  if 97 ≤ c.toNat ∧ c.toNat ≤ 122 then Char.ofNat (c.toNat - 32) else c

/-- JS `s.toLowerCase()`. -/
def jsLower (s : String) : String := ⟨s.data.map lowChar⟩

/-- JS `s.toUpperCase()`. -/
def jsUpper (s : String) : String := ⟨s.data.map upChar⟩

/-- Lexicographic `≤` on character lists by code point, the order JS uses for
`a <= b`, `a < b` on strings. -/
def strLeChars : List Char → List Char → Bool
  | [], _ => true
  | _ :: _, [] => false
  | x :: xs, y :: ys =>
    if x.toNat < y.toNat then true
    else if y.toNat < x.toNat then false
    else strLeChars xs ys

/-- JS string comparison `a <= b`. -/
def jsLeStr (a b : String) : Bool := strLeChars a.data b.data

/-- Does the second list start with the first one? -/
def strStarts : List Char → List Char → Bool
  | [], _ => true
  | _ :: _, [] => false
  | x :: xs, y :: ys => x = y && strStarts xs ys

/-- Does the list contain `needle` as a contiguous run? -/
def strHasSub (needle : List Char) : List Char → Bool
  | [] => needle.isEmpty
  | c :: t => strStarts needle (c :: t) || strHasSub needle t

/-- JS `hay.includes(needle)`. -/
def jsIncludes (hay needle : String) : Bool := strHasSub needle.data hay.data

/-- JS truthiness of an optional string: `undefined` and `""` are falsy. -/
def strTruthy : Option String → Bool
  | none => false
  | some s => s ≠ ""

/-- JS `a || b` where `a` is an optional string and `b` a string default:
`b` is used when `a` is absent or the empty string. -/
def jsOrStr (a : Option String) (b : String) : String :=
  match a with
  | some s => if s = "" then b else s
  | none => b

/-- ASCII decimal digit test. -/
def isDigitCh (c : Char) : Bool := 48 ≤ c.toNat && c.toNat ≤ 57

/-- Numeric value of an ASCII digit. -/
def digVal (c : Char) : Nat := c.toNat - 48

/-- Day count of a month, with the leap-year rule used by the `date` format
checker of ajv-formats. -/
def daysInMonth (year month : Nat) : Nat :=
  if month = 2 then
    if year % 4 = 0 ∧ (year % 100 ≠ 0 ∨ year % 400 = 0) then 29 else 28
  else if month = 4 ∨ month = 6 ∨ month = 9 ∨ month = 11 then 30
  else 31

/-- The ajv-formats `date` format: `YYYY-MM-DD` with a real month and day. -/
def isDateChars : List Char → Bool
  | [y1, y2, y3, y4, h1, m1, m2, h2, d1, d2] =>
    [y1, y2, y3, y4, m1, m2, d1, d2].all isDigitCh && h1 = '-' && h2 = '-' &&
    (let year := ((digVal y1 * 10 + digVal y2) * 10 + digVal y3) * 10 + digVal y4
     let month := digVal m1 * 10 + digVal m2
     let day := digVal d1 * 10 + digVal d2
     decide (1 ≤ month) && decide (month ≤ 12) && decide (1 ≤ day) &&
       decide (day ≤ daysInMonth year month))
  | _ => false

/-- String-level `date` format check (`publicationDate`, `purchaseDate`). -/
def isDateFmt (s : String) : Bool := isDateChars s.data

/-- Timezone suffix of an RFC3339 time: `z`, `Z` or `[+-]hh(:?mm)?`. -/
def isTzChars : List Char → Bool
  | ['z'] => true
  | ['Z'] => true
  | [sgn, h1, h2] => (sgn = '+' || sgn = '-') && isDigitCh h1 && isDigitCh h2
  | [sgn, h1, h2, m1, m2] =>
    (sgn = '+' || sgn = '-') && isDigitCh h1 && isDigitCh h2 && isDigitCh m1 && isDigitCh m2
  | [sgn, h1, h2, ':', m1, m2] =>
    (sgn = '+' || sgn = '-') && isDigitCh h1 && isDigitCh h2 && isDigitCh m1 && isDigitCh m2
  | _ => false

/-- Optional fraction-of-second followed by the timezone suffix. -/
def isFracTz : List Char → Bool
  | '.' :: rest =>
    decide (rest.takeWhile isDigitCh ≠ []) && isTzChars (rest.dropWhile isDigitCh)
  | cs => isTzChars cs

/-- Time-of-day part of the ajv-formats `date-time` format:
`hh:mm:ss(.frac)?` plus a timezone, allowing the `23:59:60` leap second. -/
def isTimeChars : List Char → Bool
  | h1 :: h2 :: ':' :: m1 :: m2 :: ':' :: s1 :: s2 :: rest =>
    [h1, h2, m1, m2, s1, s2].all isDigitCh &&
    (let hr := digVal h1 * 10 + digVal h2
     let mi := digVal m1 * 10 + digVal m2
     let se := digVal s1 * 10 + digVal s2
     (decide (hr ≤ 23) && decide (mi ≤ 59) && decide (se ≤ 59) ||
      decide (hr = 23) && decide (mi = 59) && decide (se = 60))) &&
    isFracTz rest
  | _ => false

/-- Is the character a `date-time` separator (`T`, `t` or a space)? -/
def isDtSep (c : Char) : Bool := c = 'T' || c = 't' || c = ' '

/-- Split a character list at every `date-time` separator. -/
def splitDtSep : List Char → List (List Char)
  | [] => [[]]
  | c :: t =>
    if isDtSep c then [] :: splitDtSep t
    else
      match splitDtSep t with
      | h :: r => (c :: h) :: r
      | [] => [[c]]

/-- The ajv-formats `date-time` format (RFC3339: date, one separator, time
with timezone) used for `createdAt` and `updatedAt`. -/
def isDateTimeFmt (s : String) : Bool :=
  match splitDtSep s.data with
  | [d, t] => isDateChars d && isTimeChars t
  | _ => false

/-- Character class of the `isbn10` schema pattern. -/
def isbn10Class (c : Char) : Bool := isDigitCh c || c = 'X' || c = 'x' || c = '-'

/-- The `isbn10` schema pattern from validators.js: at least ten characters
drawn from digits, `X`, `x` and hyphen. -/
def isbn10Ok (s : String) : Bool :=
  s.data.all isbn10Class && decide (10 ≤ s.data.length)

/-- Character class of the `isbn13` schema pattern. -/
def isbn13Class (c : Char) : Bool := isDigitCh c || c = '-'

/-- The `isbn13` schema pattern from validators.js: an optional `978`/`979`
prefix followed by at least ten characters from digits and hyphen (with the
regex's backtracking, the prefix branch and the prefixless branch are both
admitted). -/
def isbn13Ok (s : String) : Bool :=
  (s.data.all isbn13Class && decide (10 ≤ s.data.length)) ||
  ((strStarts ['9', '7', '8'] s.data || strStarts ['9', '7', '9'] s.data) &&
    (s.data.drop 3).all isbn13Class && decide (10 ≤ (s.data.drop 3).length))

/-- Tail of a URI scheme: scheme characters up to the mandatory colon. -/
def uriSchemeRest : List Char → Bool
  | [] => false
  | c :: t =>
    if c = ':' then true
    else (c.isAlpha || isDigitCh c || c = '+' || c = '-' || c = '.') && uriSchemeRest t

/-- The ajv-formats `uri` format, modelled at the level the repository needs:
the string must contain a `/` or `:` and start with `scheme:` where the
scheme is a letter followed by letters, digits, `+`, `-` or `.`. -/
def isUriFmt (s : String) : Bool :=
  (s.data.any fun c => c = '/' || c = ':') &&
  (match s.data with
   | c :: t => c.isAlpha && uriSchemeRest t
   | [] => false)

/-- Allowed `format` enum values of the book schema. -/
def formatEnum : List String := ["Hardcover", "Paperback", "eBook", "Audiobook", "Other"]

/-- Allowed `condition` enum values of the book schema. -/
def conditionEnum : List String := ["New", "Like New", "Very Good", "Good", "Acceptable", "Poor"]

/-- Allowed `readStatus` enum values of the book schema. -/
def readStatusEnum : List String := ["Unread", "Reading", "Finished", "Abandoned"]

/-- Ajv `minLength: 1`. -/
def minLen1 (s : String) : Bool := decide (1 ≤ s.data.length)

/-- A JSON book object: every property of the `Book` schema of validators.js,
each one optional because a JSON object may omit it. Ajv is configured with
`removeAdditional`, so objects that reach the store never carry properties
outside this list. -/
structure BookObj where
  id : Option String := none
  title : Option String := none
  subtitle : Option String := none
  authors : Option (List String) := none
  publisher : Option String := none
  publicationDate : Option String := none
  isbn10 : Option String := none
  isbn13 : Option String := none
  edition : Option String := none
  format : Option String := none
  purchaseDate : Option String := none
  pricePaid : Option ℚ := none
  currency : Option String := none
  condition : Option String := none
  location : Option String := none
  tags : Option (List String) := none
  notes : Option String := none
  readStatus : Option String := none
  rating : Option ℤ := none
  coverUrl : Option String := none
  createdAt : Option String := none
  updatedAt : Option String := none
deriving DecidableEq

/-- The compiled full-book validator (`compile(bookSchema)`): `title` is
required and non-empty; every present property must satisfy its schema
constraint. -/
def validateNewBook (b : BookObj) : Bool :=
  (match b.title with | some t => minLen1 t | none => false) &&
  b.authors.all (fun l => l.all minLen1) &&
  b.publicationDate.all isDateFmt &&
  b.isbn10.all isbn10Ok &&
  b.isbn13.all isbn13Ok &&
  b.format.all (fun f => formatEnum.contains f) &&
  b.purchaseDate.all isDateFmt &&
  b.pricePaid.all (fun p => decide (0 ≤ p)) &&
  b.currency.all minLen1 &&
  b.condition.all (fun c => conditionEnum.contains c) &&
  b.tags.all (fun l => l.all minLen1) &&
  b.readStatus.all (fun r => readStatusEnum.contains r) &&
  b.rating.all (fun r => decide (1 ≤ r ∧ r ≤ 5)) &&
  b.coverUrl.all isUriFmt &&
  b.createdAt.all isDateTimeFmt &&
  b.updatedAt.all isDateTimeFmt

/-- A PATCH request body: the `BookPatch` schema has the same properties and
constraints as the full schema except that `id`, `createdAt` and `updatedAt`
are deleted (Ajv's `removeAdditional` strips them from any request) and no
property is required. -/
structure PatchBody where
  title : Option String := none
  subtitle : Option String := none
  authors : Option (List String) := none
  publisher : Option String := none
  publicationDate : Option String := none
  isbn10 : Option String := none
  isbn13 : Option String := none
  edition : Option String := none
  format : Option String := none
  purchaseDate : Option String := none
  pricePaid : Option ℚ := none
  currency : Option String := none
  condition : Option String := none
  location : Option String := none
  tags : Option (List String) := none
  notes : Option String := none
  readStatus : Option String := none
  rating : Option ℤ := none
  coverUrl : Option String := none
deriving DecidableEq

/-- The compiled partial-book validator (`compile(partialBookSchema)`). -/
def validatePatchBook (p : PatchBody) : Bool :=
  p.title.all minLen1 &&
  p.authors.all (fun l => l.all minLen1) &&
  p.publicationDate.all isDateFmt &&
  p.isbn10.all isbn10Ok &&
  p.isbn13.all isbn13Ok &&
  p.format.all (fun f => formatEnum.contains f) &&
  p.purchaseDate.all isDateFmt &&
  p.pricePaid.all (fun q => decide (0 ≤ q)) &&
  p.currency.all minLen1 &&
  p.condition.all (fun c => conditionEnum.contains c) &&
  p.tags.all (fun l => l.all minLen1) &&
  p.readStatus.all (fun r => readStatusEnum.contains r) &&
  p.rating.all (fun r => decide (1 ≤ r ∧ r ≤ 5)) &&
  p.coverUrl.all isUriFmt

/-- The empty-object PATCH body. -/
def emptyPatch : PatchBody := {}

/-! Store layer (`src/store.js`). The in-memory state is the `books` array. -/

/-- Normalized ISBN dedupe key: `isbn13 || isbn10 || ''` with every hyphen
removed, upper-cased; computed identically by `server.js` (POST duplicate
scan) and `store.js` (`isbnKey` in `importJson`). -/
def bookKey (b : BookObj) : String :=
  jsUpper ⟨(jsOrStr b.isbn13 (jsOrStr b.isbn10 "")).data.filter fun c => c ≠ '-'⟩

/-- Query parameters accepted by `Store.list`. The two numeric parameters are
validated non-negative integers at the HTTP boundary, and the one internal
caller passes the literals 50000 and 0, so they are `Nat`s here. -/
structure ListParams where
  q : Option String := none
  author : Option String := none
  tag : Option String := none
  beforePurchaseDate : Option String := none
  afterPurchaseDate : Option String := none
  sort : Option String := none
  limit : Nat
  offset : Nat

/-- Result shape of `Store.list`: total matched count plus one page. -/
structure ListResult where
  total : Nat
  items : List BookObj
deriving DecidableEq

/-- Join strings with single spaces, as `Array.prototype.join(' ')` does. -/
def joinSpace : List String → String
  | [] => ""
  | [s] => s
  | s :: rest => s ++ " " ++ joinSpace rest

/-- The free-text haystack of `Store.list`: title, subtitle, publisher, notes,
authors and tags in that order, with absent and empty entries dropped by
`.filter(Boolean)`, joined by spaces and lower-cased. -/
def hayOf (b : BookObj) : String :=
  jsLower (joinSpace
    ((([b.title, b.subtitle, b.publisher, b.notes].filterMap id)
        ++ b.authors.getD [] ++ b.tags.getD []).filter fun s => s ≠ ""))

/-- Does a row match the free-text query `q`? -/
def qMatches (qv : String) (b : BookObj) : Bool :=
  jsIncludes (hayOf b) (jsLower (jsTrim qv))

/-- The `q` filter stage, guarded by `q && q.trim()`. -/
def qFilter (q : Option String) (rows : List BookObj) : List BookObj :=
  match q with
  | some s => if s ≠ "" ∧ jsTrim s ≠ "" then rows.filter (qMatches s) else rows
  | none => rows

/-- Does some author of the row contain the (trimmed, lower-cased) author
query as a substring? -/
def authorMatches (av : String) (b : BookObj) : Bool :=
  (b.authors.getD []).any fun x => jsIncludes (jsLower x) (jsLower (jsTrim av))

/-- The `author` filter stage, guarded by `author && author.trim()`. -/
def authorFilter (author : Option String) (rows : List BookObj) : List BookObj :=
  match author with
  | some s => if s ≠ "" ∧ jsTrim s ≠ "" then rows.filter (authorMatches s) else rows
  | none => rows

/-- Does some tag of the row equal the (trimmed, lower-cased) tag query,
case-insensitively? -/
def tagMatches (tv : String) (b : BookObj) : Bool :=
  (b.tags.getD []).any fun x => jsLower x = jsLower (jsTrim tv)

/-- The `tag` filter stage, guarded by `tag && tag.trim()`. -/
def tagFilter (tag : Option String) (rows : List BookObj) : List BookObj :=
  match tag with
  | some s => if s ≠ "" ∧ jsTrim s ≠ "" then rows.filter (tagMatches s) else rows
  | none => rows

/-- One row of the `beforePurchaseDate` filter:
`b.purchaseDate && b.purchaseDate <= beforePurchaseDate`. -/
def beforePass (bd : String) (b : BookObj) : Bool :=
  strTruthy b.purchaseDate && jsLeStr (b.purchaseDate.getD "") bd

/-- The `beforePurchaseDate` filter stage, guarded by the truthiness of the
parameter itself. -/
def beforeFilter (bound : Option String) (rows : List BookObj) : List BookObj :=
  match bound with
  | some bd => if bd ≠ "" then rows.filter (beforePass bd) else rows
  | none => rows

/-- One row of the `afterPurchaseDate` filter:
`b.purchaseDate && b.purchaseDate >= afterPurchaseDate`. -/
def afterPass (ad : String) (b : BookObj) : Bool :=
  strTruthy b.purchaseDate && jsLeStr ad (b.purchaseDate.getD "")

/-- The `afterPurchaseDate` filter stage. -/
def afterFilter (bound : Option String) (rows : List BookObj) : List BookObj :=
  match bound with
  | some ad => if ad ≠ "" then rows.filter (afterPass ad) else rows
  | none => rows

/-- Sort key `a[field] ?? ''` of the `compare` helper. -/
def sortKey (f : BookObj → Option String) (b : BookObj) : String := (f b).getD ""

/-- Ascending comparator as a total `≤` test: the JS comparator returns a
non-positive number exactly when `a[field] ?? '' <= b[field] ?? ''`. -/
def leAsc (f : BookObj → Option String) (a b : BookObj) : Bool :=
  jsLeStr (sortKey f a) (sortKey f b)

/-- Descending comparator as a total `≤` test. -/
def leDesc (f : BookObj → Option String) (a b : BookObj) : Bool :=
  jsLeStr (sortKey f b) (sortKey f a)

/-- The `sortMap` of `Store.list`, with `sortMap[sort] || sortMap.title`:
unknown or absent sort selectors fall back to ascending title. -/
def sortLeFn (sort : Option String) : BookObj → BookObj → Bool :=
  match sort with
  | some "title" => leAsc (fun b => b.title)
  | some "-title" => leDesc (fun b => b.title)
  | some "purchaseDate" => leAsc (fun b => b.purchaseDate)
  | some "-purchaseDate" => leDesc (fun b => b.purchaseDate)
  | some "createdAt" => leAsc (fun b => b.createdAt)
  | some "-createdAt" => leDesc (fun b => b.createdAt)
  | some "updatedAt" => leAsc (fun b => b.updatedAt)
  | some "-updatedAt" => leDesc (fun b => b.updatedAt)
  | _ => leAsc (fun b => b.title)

/-- Sort rows as `rows.sort(sortMap[sort] || sortMap.title)` does. JS
`Array.prototype.sort` is stable, and for this consistent comparator every
stable sort produces the same list, so it is modelled by the stable
`List.insertionSort`. -/
def sortRows (sort : Option String) (rows : List BookObj) : List BookObj :=
  List.insertionSort (fun a b => sortLeFn sort a b = true) rows

/-- `Store.list` (store.js lines 49-103): the five filter stages in source
order, then the sort, then `total` and the `slice(offset, offset + limit)`
page. -/
def listBooks (p : ListParams) (books : List BookObj) : ListResult :=
  let rows := qFilter p.q books
  let rows := authorFilter p.author rows
  let rows := tagFilter p.tag rows
  let rows := beforeFilter p.beforePurchaseDate rows
  let rows := afterFilter p.afterPurchaseDate rows
  let sorted := sortRows p.sort rows
  { total := sorted.length, items := (sorted.drop p.offset).take p.limit }

/-- `Store.get`: first book whose `id` strictly equals the requested id, else
`null`. -/
def getBook (books : List BookObj) (i : String) : Option BookObj :=
  books.find? fun b => b.id = some i

/-- `Store.upsert`: replace the first book whose `id` equals the incoming
book's `id` (`findIndex` + in-place store), else push at the end. (JS `===`
on two `undefined` ids is true, hence the `Option` equality.) -/
def upsertBook (books : List BookObj) (book : BookObj) : List BookObj :=
  match books with
  | [] => [book]
  | b :: rest => if b.id = book.id then book :: rest else b :: upsertBook rest book

/-- `Store.remove`: drop every book with the given id; the flag reports
whether the length changed. -/
def removeBook (books : List BookObj) (i : String) : Bool × List BookObj :=
  let rest := books.filter fun b => b.id ≠ some i
  (decide (rest.length ≠ books.length), rest)

/-- Association-list model of the JS `Map` from normalized ISBN keys to ids
used by `Store.importJson`; later `set` calls shadow earlier entries. -/
def mapGet (m : List (String × Option String)) (k : String) : Option (Option String) :=
  match m.find? fun p => p.1 = k with
  | some p => some p.2
  | none => none

/-- The initial `byIsbn` map: `new Map(books.map(b => [isbnKey(b), b.id]))`;
in a `Map` constructor the last pair for a key wins, so lookups search the
reversed pair list. -/
def buildIsbnMap (books : List BookObj) : List (String × Option String) :=
  (books.map fun b => (bookKey b, b.id)).reverse

/-- The in-place merge of `Store.importJson`:
`Object.assign(existing, { ...incoming, id, updatedAt: now })` — every
property present on `incoming` overwrites, the mapped `id` and the fresh
`updatedAt` are forced. -/
def mergeImported (existing incoming : BookObj) (i : Option String) (now : String) : BookObj :=
  { id := i
    title := incoming.title.or existing.title
    subtitle := incoming.subtitle.or existing.subtitle
    authors := incoming.authors.or existing.authors
    publisher := incoming.publisher.or existing.publisher
    publicationDate := incoming.publicationDate.or existing.publicationDate
    isbn10 := incoming.isbn10.or existing.isbn10
    isbn13 := incoming.isbn13.or existing.isbn13
    edition := incoming.edition.or existing.edition
    format := incoming.format.or existing.format
    purchaseDate := incoming.purchaseDate.or existing.purchaseDate
    pricePaid := incoming.pricePaid.or existing.pricePaid
    currency := incoming.currency.or existing.currency
    condition := incoming.condition.or existing.condition
    location := incoming.location.or existing.location
    tags := incoming.tags.or existing.tags
    notes := incoming.notes.or existing.notes
    readStatus := incoming.readStatus.or existing.readStatus
    rating := incoming.rating.or existing.rating
    coverUrl := incoming.coverUrl.or existing.coverUrl
    createdAt := incoming.createdAt.or existing.createdAt
    updatedAt := some now }

/-- Replace the first list entry satisfying `p` by its image under `f`
(the `books.find` + in-place `Object.assign` of `importJson`; the store
guarantees the entry exists, and on an absent entry this is the identity). -/
def replaceFirst (books : List BookObj) (p : BookObj → Bool) (f : BookObj → BookObj) :
    List BookObj :=
  match books with
  | [] => []
  | b :: rest => if p b then f b :: rest else b :: replaceFirst rest p f

/-- Loop state of `Store.importJson`. -/
structure ImportAcc where
  books : List BookObj
  byIsbn : List (String × Option String)
  created : Nat
  updated : Nat

/-- The returned `{ created, updated }` counters. -/
structure ImportStats where
  created : Nat
  updated : Nat
deriving DecidableEq

/-- The merge-branch guard of the `importJson` loop:
`dedupeByIsbn && key && byIsbn.has(key)`. -/
def importHit (dedupe : Bool) (m : List (String × Option String)) (key : String) : Bool :=
  dedupe && key ≠ "" && (mapGet m key).isSome

/-- One iteration of the `importJson` loop: with dedupe on and a non-empty
key found in the map, merge into the mapped record and count an update;
otherwise push the incoming record, register its key, and count a create. -/
def importStep (dedupe : Bool) (now : String) (acc : ImportAcc) (incoming : BookObj) :
    ImportAcc :=
  let key := bookKey incoming
  if importHit dedupe acc.byIsbn key then
    let i := (mapGet acc.byIsbn key).getD none
    { acc with
      books := replaceFirst acc.books (fun b => b.id = i)
                 (fun e => mergeImported e incoming i now)
      updated := acc.updated + 1 }
  else
    { acc with
      books := acc.books ++ [incoming]
      byIsbn := if dedupe && key ≠ "" then (key, incoming.id) :: acc.byIsbn else acc.byIsbn
      created := acc.created + 1 }

/-- The `for (const incoming of array)` loop of `importJson`. -/
def importLoop (dedupe : Bool) (now : String) : ImportAcc → List BookObj → ImportAcc
  | acc, [] => acc
  | acc, inc :: rest => importLoop dedupe now (importStep dedupe now acc inc) rest

/-- `Store.importJson(array, { dedupeByIsbn })`: thread the loop over the
incoming array starting from the current books and their ISBN map, returning
the counters and the new books array. (`now` is the `new Date().toISOString()`
taken inside the store.) -/
def importJson (books : List BookObj) (array : List BookObj) (now : String) (dedupe : Bool) :
    ImportStats × List BookObj :=
  let final := importLoop dedupe now
    { books := books, byIsbn := buildIsbnMap books, created := 0, updated := 0 } array
  ({ created := final.created, updated := final.updated }, final.books)

/-! Request layer (`src/server.js`). Each handler is a function from the
current books array (plus the request data, the freshly generated uuid where
one is drawn, and the `new Date().toISOString()` timestamp) to an outcome
and the next books array. -/

/-- Outcome of `POST /api/books`. -/
inductive PostOut where
  | invalid
  | conflict (existingId : Option String)
  | created (book : BookObj)
deriving DecidableEq

/-- HTTP status code of a POST outcome. -/
def PostOut.status : PostOut → Nat
  | .invalid => 400
  | .conflict _ => 409
  | .created _ => 201

/-- Outcome of `PUT /api/books/:id`. -/
inductive PutOut where
  | notFound
  | invalid
  | ok (book : BookObj)
deriving DecidableEq

/-- HTTP status code of a PUT outcome. -/
def PutOut.status : PutOut → Nat
  | .notFound => 404
  | .invalid => 400
  | .ok _ => 200

/-- Outcome of `PATCH /api/books/:id`. -/
inductive PatchOut where
  | notFound
  | invalid
  | ok (book : BookObj)
deriving DecidableEq

/-- HTTP status code of a PATCH outcome. -/
def PatchOut.status : PatchOut → Nat
  | .notFound => 404
  | .invalid => 400
  | .ok _ => 200

/-- Outcome of `DELETE /api/books/:id`. -/
inductive DeleteOut where
  | notFound
  | deleted
deriving DecidableEq

/-- HTTP status code of a DELETE outcome. -/
def DeleteOut.status : DeleteOut → Nat
  | .notFound => 404
  | .deleted => 204

/-- Outcome of `POST /api/import/json`. -/
inductive ImportOut where
  | invalid
  | ok (stats : ImportStats)
deriving DecidableEq

/-- Server-assigned fields on create: spread the body, then force `id`,
`createdAt` and `updatedAt` (server.js lines 66-71). -/
def postServerFields (body : BookObj) (nid now : String) : BookObj :=
  { body with id := some nid, createdAt := some now, updatedAt := some now }

/-- The internal `store.list` query of the POST duplicate scan:
`{ limit: 50000, offset: 0, sort: 'title' }`. -/
def postScanParams : ListParams :=
  { sort := some "title", limit := 50000, offset := 0 }

/-- `POST /api/books`: build the record with server fields, validate it,
scan a title-sorted 50000-item listing for a book with the same non-empty
normalized ISBN (409 with its id on a hit), else upsert and answer 201. -/
def postBooks (books : List BookObj) (body : BookObj) (nid now : String) :
    PostOut × List BookObj :=
  let incoming := postServerFields body nid now
  if validateNewBook incoming then
    let key := bookKey incoming
    if key ≠ "" then
      match (listBooks postScanParams books).items.find? (fun b => bookKey b = key) with
      | some dupe => (.conflict dupe.id, books)
      | none => (.created incoming, upsertBook books incoming)
    else (.created incoming, upsertBook books incoming)
  else (.invalid, books)

/-- `PUT /api/books/:id`: 404 if no such id, else replace the record with the
body while keeping `id` and `createdAt` and refreshing `updatedAt`, validated
against the full schema. -/
def putBooks (books : List BookObj) (i : String) (body : BookObj) (now : String) :
    PutOut × List BookObj :=
  match getBook books i with
  | none => (.notFound, books)
  | some existing =>
    let replacement :=
      { body with id := existing.id, createdAt := existing.createdAt, updatedAt := some now }
    if validateNewBook replacement then (.ok replacement, upsertBook books replacement)
    else (.invalid, books)

/-- The PATCH merge of server.js line 121: spread the existing record, spread
the (already system-field-stripped) patch body over it, force `id` from the
existing record and a fresh `updatedAt`; `createdAt` therefore always comes
from the existing record. -/
def mergePatch (existing : BookObj) (p : PatchBody) (now : String) : BookObj :=
  { id := existing.id
    title := p.title.or existing.title
    subtitle := p.subtitle.or existing.subtitle
    authors := p.authors.or existing.authors
    publisher := p.publisher.or existing.publisher
    publicationDate := p.publicationDate.or existing.publicationDate
    isbn10 := p.isbn10.or existing.isbn10
    isbn13 := p.isbn13.or existing.isbn13
    edition := p.edition.or existing.edition
    format := p.format.or existing.format
    purchaseDate := p.purchaseDate.or existing.purchaseDate
    pricePaid := p.pricePaid.or existing.pricePaid
    currency := p.currency.or existing.currency
    condition := p.condition.or existing.condition
    location := p.location.or existing.location
    tags := p.tags.or existing.tags
    notes := p.notes.or existing.notes
    readStatus := p.readStatus.or existing.readStatus
    rating := p.rating.or existing.rating
    coverUrl := p.coverUrl.or existing.coverUrl
    createdAt := existing.createdAt
    updatedAt := some now }

/-- `PATCH /api/books/:id`: 404 if no such id (checked before any
validation), 400 if the patch body fails the partial schema, then merge and
re-validate the merged record against the full schema before persisting. -/
def patchBooks (books : List BookObj) (i : String) (body : PatchBody) (now : String) :
    PatchOut × List BookObj :=
  match getBook books i with
  | none => (.notFound, books)
  | some existing =>
    if validatePatchBook body then
      let merged := mergePatch existing body now
      if validateNewBook merged then (.ok merged, upsertBook books merged)
      else (.invalid, books)
    else (.invalid, books)

/-- `DELETE /api/books/:id`. -/
def deleteBooks (books : List BookObj) (i : String) : DeleteOut × List BookObj :=
  let r := removeBook books i
  (if r.1 then .deleted else .notFound, r.2)

/-- Server-side normalization of one imported record (server.js lines
160-166): keep a truthy client id, else a fresh uuid; keep a truthy client
`createdAt`, else the request time; always refresh `updatedAt`. -/
def normalizeImport (raw : BookObj) (nid now : String) : BookObj :=
  { raw with
    id := some (jsOrStr raw.id nid)
    createdAt := some (jsOrStr raw.createdAt now)
    updatedAt := some now }

/-- `POST /api/import/json` over an array body: normalize every record with
the request time `nowH` (drawing uuid number `j` from `ids` for the record at
position `j`), reject the whole request if any normalized record fails the
full schema (the store is then untouched), else run the store import with
dedupe on at the store's own time `nowS`. -/
def importHandler (books : List BookObj) (arr : List BookObj) (ids : Nat → String)
    (nowH nowS : String) : ImportOut × List BookObj :=
  let incoming := arr.enum.map fun p => normalizeImport p.2 (ids p.1) nowH
  if incoming.all validateNewBook then
    let r := importJson books incoming nowS true
    (.ok r.1, r.2)
  else (.invalid, books)

/-! Reachable store states. A state is reachable at time `t` when it can be
produced from the empty store by a sequence of API requests whose server
timestamps are non-decreasing and end at or before `t`. `Reachable` places no
restriction on request bodies; `ReachableTame` additionally requires that
every import carry only effective `createdAt` values at or before the
request time, which is the hypothesis under which the invariant holds. -/

/-- States reachable through the API with a monotone server clock. -/
inductive Reachable : String → List BookObj → Prop where
  | init (t : String) : Reachable t []
  | post (t t' : String) (s : List BookObj) (body : BookObj) (nid : String) :
      Reachable t s → jsLeStr t t' = true → Reachable t' (postBooks s body nid t').2
  | put (t t' : String) (s : List BookObj) (i : String) (body : BookObj) :
      Reachable t s → jsLeStr t t' = true → Reachable t' (putBooks s i body t').2
  | patch (t t' : String) (s : List BookObj) (i : String) (body : PatchBody) :
      Reachable t s → jsLeStr t t' = true → Reachable t' (patchBooks s i body t').2
  | del (t t' : String) (s : List BookObj) (i : String) :
      Reachable t s → jsLeStr t t' = true → Reachable t' (deleteBooks s i).2
  | imp (t th ts : String) (s : List BookObj) (arr : List BookObj) (ids : Nat → String) :
      Reachable t s → jsLeStr t th = true → jsLeStr th ts = true →
      Reachable ts (importHandler s arr ids th ts).2

/-- Reachability restricted to imports whose records carry no effective
`createdAt` later than the request time of the import. -/
inductive ReachableTame : String → List BookObj → Prop where
  | init (t : String) : ReachableTame t []
  | post (t t' : String) (s : List BookObj) (body : BookObj) (nid : String) :
      ReachableTame t s → jsLeStr t t' = true → ReachableTame t' (postBooks s body nid t').2
  | put (t t' : String) (s : List BookObj) (i : String) (body : BookObj) :
      ReachableTame t s → jsLeStr t t' = true → ReachableTame t' (putBooks s i body t').2
  | patch (t t' : String) (s : List BookObj) (i : String) (body : PatchBody) :
      ReachableTame t s → jsLeStr t t' = true → ReachableTame t' (patchBooks s i body t').2
  | del (t t' : String) (s : List BookObj) (i : String) :
      ReachableTame t s → jsLeStr t t' = true → ReachableTame t' (deleteBooks s i).2
  | imp (t th ts : String) (s : List BookObj) (arr : List BookObj) (ids : Nat → String) :
      ReachableTame t s → jsLeStr t th = true → jsLeStr th ts = true →
      (∀ r ∈ arr, jsLeStr (jsOrStr r.createdAt th) th = true) →
      ReachableTame ts (importHandler s arr ids th ts).2

/-- Timestamp well-formedness of one record relative to a time bound: both
system timestamps are present, `createdAt ≤ updatedAt`, and `updatedAt` is
not in the future of the bound. -/
def goodStamps (t : String) (b : BookObj) : Prop :=
  ∃ c u, b.createdAt = some c ∧ b.updatedAt = some u ∧
    jsLeStr c u = true ∧ jsLeStr u t = true

/-! Helper lemmas. -/

/-- Lexicographic string order is reflexive. -/
theorem strLeChars_refl (l : List Char) : strLeChars l l = true := by
  induction l with
  | nil => rfl
  | cons x xs ih => simp [strLeChars, ih]

/-- Lexicographic string order is transitive. -/
theorem strLeChars_trans : ∀ {a b c : List Char},
    strLeChars a b = true → strLeChars b c = true → strLeChars a c = true := by
  intro a
  induction a with
  | nil => intro b c _ _; rfl
  | cons x xs ih =>
    intro b c hab hbc
    cases b with
    | nil => simp [strLeChars] at hab
    | cons y ys =>
      cases c with
      | nil => simp [strLeChars] at hbc
      | cons z zs =>
        simp only [strLeChars] at hab hbc ⊢
        split_ifs at hab hbc ⊢ <;>
          first
          | rfl
          | omega
          | exact ih hab hbc

/-- Reflexivity for `jsLeStr`. -/
theorem jsLeStr_refl (s : String) : jsLeStr s s = true := strLeChars_refl s.data

/-- Transitivity for `jsLeStr`. -/
theorem jsLeStr_trans {a b c : String} (h1 : jsLeStr a b = true) (h2 : jsLeStr b c = true) :
    jsLeStr a c = true := strLeChars_trans h1 h2

/-- A time bound on `goodStamps` can be relaxed upward. -/
theorem goodStamps_mono {t t' : String} {b : BookObj} (h : goodStamps t b)
    (hle : jsLeStr t t' = true) : goodStamps t' b := by
  obtain ⟨c, u, hc, hu, hcu, hut⟩ := h
  exact ⟨c, u, hc, hu, hcu, jsLeStr_trans hut hle⟩

/-- Membership after an upsert: every record of the result was already
present or is the upserted record. -/
theorem mem_upsertBook {s : List BookObj} {m b : BookObj} (h : b ∈ upsertBook s m) :
    b ∈ s ∨ b = m := by
  induction s with
  | nil => simpa [upsertBook] using h
  | cons x rest ih =>
    by_cases hx : x.id = m.id
    · simp only [upsertBook, if_pos hx, List.mem_cons] at h
      rcases h with h | h
      · exact Or.inr h
      · exact Or.inl (List.mem_cons_of_mem _ h)
    · simp only [upsertBook, if_neg hx, List.mem_cons] at h
      rcases h with h | h
      · exact Or.inl (h ▸ List.mem_cons_self _ _)
      · rcases ih h with h' | h'
        · exact Or.inl (List.mem_cons_of_mem _ h')
        · exact Or.inr h'

/-- After upserting a record whose id is `some i`, `Store.get i` returns the
record itself. -/
theorem getBook_upsertBook_self (s : List BookObj) {m : BookObj} {i : String}
    (h : m.id = some i) : getBook (upsertBook s m) i = some m := by
  induction s with
  | nil => simp [upsertBook, getBook, List.find?, h]
  | cons x rest ih =>
    by_cases hx : x.id = m.id
    · have hxi : x.id = some i := hx.trans h
      simp [upsertBook, getBook, List.find?, hxi, h]
    · have hxne : ¬ x.id = some i := fun hc => hx (hc.trans h.symm)
      simp only [upsertBook, if_neg hx, getBook, List.find?] at ih ⊢
      simp [hxne, ih]

/-- Upserting a record whose id already occurs leaves the id sequence of the
store unchanged. -/
theorem map_id_upsertBook {s : List BookObj} {m : BookObj}
    (h : ∃ b ∈ s, b.id = m.id) :
    (upsertBook s m).map (fun b => b.id) = s.map (fun b => b.id) := by
  induction s with
  | nil => simp at h
  | cons x rest ih =>
    by_cases hx : x.id = m.id
    · simp [upsertBook, if_pos hx, hx]
    · rcases h with ⟨b, hb, hbid⟩
      rcases List.mem_cons.mp hb with rfl | hb'
      · exact absurd hbid hx
      · simp [upsertBook, if_neg hx, ih ⟨b, hb', hbid⟩]

/-- Length of `replaceFirst`. -/
theorem length_replaceFirst (l : List BookObj) (p : BookObj → Bool) (f : BookObj → BookObj) :
    (replaceFirst l p f).length = l.length := by
  induction l with
  | nil => rfl
  | cons x rest ih =>
    by_cases hx : p x <;> simp [replaceFirst, hx, ih]

/-- Membership after `replaceFirst`: every record of the result was already
present or is the image of a present record satisfying the test. -/
theorem mem_replaceFirst {l : List BookObj} {p : BookObj → Bool} {f : BookObj → BookObj}
    {b : BookObj} (h : b ∈ replaceFirst l p f) :
    b ∈ l ∨ ∃ a ∈ l, p a = true ∧ b = f a := by
  induction l with
  | nil => simp [replaceFirst] at h
  | cons x rest ih =>
    by_cases hx : p x
    · simp only [replaceFirst, if_pos hx, List.mem_cons] at h
      rcases h with h | h
      · exact Or.inr ⟨x, List.mem_cons_self _ _, hx, h⟩
      · exact Or.inl (List.mem_cons_of_mem _ h)
    · simp only [replaceFirst, if_neg hx, List.mem_cons] at h
      rcases h with h | h
      · exact Or.inl (h ▸ List.mem_cons_self _ _)
      · rcases ih h with h' | ⟨a, ha, hpa, hfa⟩
        · exact Or.inl (List.mem_cons_of_mem _ h')
        · exact Or.inr ⟨a, List.mem_cons_of_mem _ ha, hpa, hfa⟩

/-- Entries of `replaceFirst` position by position: each one is unchanged or
is the image of the old entry at the same position, that entry passing the
test. -/
theorem getElem_replaceFirst (l : List BookObj) (p : BookObj → Bool) (f : BookObj → BookObj)
    (j : Nat) (h : j < l.length) (h' : j < (replaceFirst l p f).length) :
    (replaceFirst l p f)[j] = l[j] ∨
      ((replaceFirst l p f)[j] = f l[j] ∧ p l[j] = true) := by
  induction l generalizing j with
  | nil => simp at h
  | cons x rest ih =>
    by_cases hx : p x
    · cases j with
      | zero => simp [replaceFirst, if_pos hx, hx]
      | succ k => simp [replaceFirst, if_pos hx]
    · cases j with
      | zero => simp [replaceFirst, if_neg hx]
      | succ k =>
        have hk : k < rest.length := by simpa using h
        have hk' : k < (replaceFirst rest p f).length := by
          simpa [length_replaceFirst] using hk
        simpa [replaceFirst, if_neg hx] using ih k hk hk'

/-- The found record of `Store.get` is a member with the requested id. -/
theorem getBook_mem {s : List BookObj} {i : String} {e : BookObj}
    (h : getBook s i = some e) : e ∈ s ∧ e.id = some i := by
  unfold getBook at h
  refine ⟨List.mem_of_find?_eq_some h, ?_⟩
  simpa using List.find?_some h

/-- `replaceFirst` with an id-preserving replacement keeps the id sequence. -/
theorem map_id_replaceFirst {l : List BookObj} {p : BookObj → Bool} {f : BookObj → BookObj}
    (hf : ∀ e, p e = true → (f e).id = e.id) :
    (replaceFirst l p f).map (fun b => b.id) = l.map (fun b => b.id) := by
  induction l with
  | nil => rfl
  | cons x rest ih =>
    by_cases hx : p x
    · simp [replaceFirst, if_pos hx, hf x hx]
    · simp [replaceFirst, if_neg hx, ih]

/-- Unfolding of `importStep` in the merge branch. -/
theorem importStep_hit {dedupe : Bool} {now : String} {acc : ImportAcc} {incoming : BookObj}
    (hc : importHit dedupe acc.byIsbn (bookKey incoming) = true) :
    importStep dedupe now acc incoming =
      { acc with
        books := replaceFirst acc.books
                   (fun b => b.id = (mapGet acc.byIsbn (bookKey incoming)).getD none)
                   (fun e => mergeImported e incoming
                     ((mapGet acc.byIsbn (bookKey incoming)).getD none) now)
        updated := acc.updated + 1 } := by
  simp only [importStep]
  rw [if_pos hc]

/-- Unfolding of `importStep` in the push branch. -/
theorem importStep_miss {dedupe : Bool} {now : String} {acc : ImportAcc} {incoming : BookObj}
    (hc : importHit dedupe acc.byIsbn (bookKey incoming) = false) :
    importStep dedupe now acc incoming =
      { acc with
        books := acc.books ++ [incoming]
        byIsbn := if dedupe && bookKey incoming ≠ "" then
                    (bookKey incoming, incoming.id) :: acc.byIsbn
                  else acc.byIsbn
        created := acc.created + 1 } := by
  simp only [importStep]
  rw [if_neg (by simp [hc])]

/-- One import step never shrinks the books array. -/
theorem importStep_length_ge (dedupe : Bool) (now : String) (acc : ImportAcc)
    (inc : BookObj) : acc.books.length ≤ (importStep dedupe now acc inc).books.length := by
  rcases Bool.eq_false_or_eq_true (importHit dedupe acc.byIsbn (bookKey inc)) with hc | hc
  · rw [importStep_hit hc]
    dsimp only
    rw [length_replaceFirst]
  · rw [importStep_miss hc]
    dsimp only
    simp

/-- The import loop never shrinks the books array. -/
theorem importLoop_length_ge (dedupe : Bool) (now : String) (arr : List BookObj) :
    ∀ acc : ImportAcc, acc.books.length ≤ (importLoop dedupe now acc arr).books.length := by
  induction arr with
  | nil => intro acc; simp [importLoop]
  | cons inc rest ih =>
    intro acc
    simp only [importLoop]
    exact le_trans (importStep_length_ge dedupe now acc inc) (ih (importStep dedupe now acc inc))

/-- Counter bookkeeping of the import loop: every element is counted exactly
once, and the books array grows by exactly the created count. -/
theorem importLoop_counts (dedupe : Bool) (now : String) (arr : List BookObj) :
    ∀ acc : ImportAcc,
      (importLoop dedupe now acc arr).created + (importLoop dedupe now acc arr).updated
        = acc.created + acc.updated + arr.length ∧
      (importLoop dedupe now acc arr).books.length + acc.created
        = acc.books.length + (importLoop dedupe now acc arr).created := by
  induction arr with
  | nil => intro acc; simp [importLoop]
  | cons inc rest ih =>
    intro acc
    have h := ih (importStep dedupe now acc inc)
    simp only [importLoop]
    rcases Bool.eq_false_or_eq_true (importHit dedupe acc.byIsbn (bookKey inc)) with hc | hc
    · rw [importStep_hit hc] at h ⊢
      dsimp only at h ⊢
      simp only [length_replaceFirst] at h
      simp only [List.length_cons]
      omega
    · rw [importStep_miss hc] at h ⊢
      dsimp only at h ⊢
      simp only [List.length_append, List.length_singleton] at h
      simp only [List.length_cons]
      omega

/-- Entries of `replaceFirst` position by position (option-valued indexing):
each entry is unchanged, or is the image of the old entry at the same
position, that entry passing the test. -/
theorem getElem?_replaceFirst (l : List BookObj) (p : BookObj → Bool) (f : BookObj → BookObj)
    (j : Nat) :
    (replaceFirst l p f)[j]? = l[j]? ∨
      ∃ a, l[j]? = some a ∧ p a = true ∧ (replaceFirst l p f)[j]? = some (f a) := by
  induction l generalizing j with
  | nil => left; simp [replaceFirst]
  | cons x rest ih =>
    by_cases hx : p x
    · cases j with
      | zero => right; exact ⟨x, by simp, hx, by simp [replaceFirst, if_pos hx]⟩
      | succ k => left; simp [replaceFirst, if_pos hx]
    · cases j with
      | zero => left; simp [replaceFirst, if_neg hx]
      | succ k => simpa [replaceFirst, if_neg hx] using ih k

/-- Entries of the books array below the starting length, after the import
loop: each is untouched, or was merged into — keeping its id and receiving
the fresh `updatedAt`. -/
theorem importLoop_getElem? (dedupe : Bool) (now : String) (arr : List BookObj) :
    ∀ (acc : ImportAcc) (j : Nat), j < acc.books.length →
      (importLoop dedupe now acc arr).books[j]? = acc.books[j]? ∨
        ∃ a b, acc.books[j]? = some a ∧ (importLoop dedupe now acc arr).books[j]? = some b ∧
          b.id = a.id ∧ b.updatedAt = some now := by
  induction arr with
  | nil => intro acc j _; left; rfl
  | cons inc rest ih =>
    intro acc j h
    have hlen : j < (importStep dedupe now acc inc).books.length :=
      lt_of_lt_of_le h (importStep_length_ge dedupe now acc inc)
    have hrest := ih (importStep dedupe now acc inc) j hlen
    have hstep :
        (importStep dedupe now acc inc).books[j]? = acc.books[j]? ∨
          ∃ a b, acc.books[j]? = some a ∧ (importStep dedupe now acc inc).books[j]? = some b ∧
            b.id = a.id ∧ b.updatedAt = some now := by
      rcases Bool.eq_false_or_eq_true (importHit dedupe acc.byIsbn (bookKey inc)) with hc | hc
      · rw [importStep_hit hc]
        dsimp only
        rcases getElem?_replaceFirst acc.books
            (fun b => b.id = (mapGet acc.byIsbn (bookKey inc)).getD none)
            (fun e => mergeImported e inc ((mapGet acc.byIsbn (bookKey inc)).getD none) now)
            j with heq | ⟨a, ha, hp, hf⟩
        · left; exact heq
        · right
          refine ⟨a, _, ha, hf, ?_, rfl⟩
          have hid : a.id = (mapGet acc.byIsbn (bookKey inc)).getD none := by simpa using hp
          simp [mergeImported, hid]
      · left
        rw [importStep_miss hc]
        dsimp only
        exact List.getElem?_append_left h
    simp only [importLoop]
    rcases hrest with h1 | ⟨a, b, ha, hb, hid, hupd⟩
    · rcases hstep with h2 | ⟨c, d, hc2, hd, hid2, hupd2⟩
      · left; rw [h1, h2]
      · right; exact ⟨c, d, hc2, by rw [h1, hd], hid2, hupd2⟩
    · rcases hstep with h2 | ⟨c, d, hc2, hd, hid2, hupd2⟩
      · right
        refine ⟨a, b, ?_, hb, hid, hupd⟩
        rw [← h2, ha]
      · right
        have had : a = d := by
          rw [hd] at ha
          exact (Option.some.injEq _ _ ▸ ha.symm : a = d)
        exact ⟨c, b, hc2, hb, by rw [hid, had, hid2], hupd⟩

/-- Closure of a predicate over the import loop: if it holds of every stored
book, every incoming book, and every merge of a stored book with an incoming
one, it holds of every book after the loop. -/
theorem importLoop_books_pred (dedupe : Bool) (now : String) (P : BookObj → Prop)
    (arr : List BookObj)
    (hinc : ∀ inc ∈ arr, P inc)
    (hmerge : ∀ e inc i, P e → inc ∈ arr → P (mergeImported e inc i now)) :
    ∀ acc : ImportAcc, (∀ b ∈ acc.books, P b) →
      ∀ b ∈ (importLoop dedupe now acc arr).books, P b := by
  induction arr with
  | nil => intro acc hacc b hb; exact hacc b hb
  | cons inc rest ih =>
    intro acc hacc b hb
    have hstep : ∀ x ∈ (importStep dedupe now acc inc).books, P x := by
      intro x hx
      rcases Bool.eq_false_or_eq_true (importHit dedupe acc.byIsbn (bookKey inc)) with hc | hc
      · rw [importStep_hit hc] at hx
        dsimp only at hx
        rcases mem_replaceFirst hx with hx' | ⟨a, ha, _, rfl⟩
        · exact hacc x hx'
        · exact hmerge a inc _ (hacc a ha) (List.mem_cons_self _ _)
      · rw [importStep_miss hc] at hx
        dsimp only at hx
        rcases List.mem_append.mp hx with hx' | hx'
        · exact hacc x hx'
        · have hxi : x = inc := by simpa using hx'
          exact hxi ▸ hinc inc (List.mem_cons_self _ _)
    exact ih (fun x hx => hinc x (List.mem_cons_of_mem _ hx))
      (fun e i j he hi => hmerge e i j he (List.mem_cons_of_mem _ hi))
      (importStep dedupe now acc inc) hstep b hb

/-- The next state of a POST is the old one or an upsert of the incoming
record. -/
theorem postBooks_snd (s : List BookObj) (body : BookObj) (nid now : String) :
    (postBooks s body nid now).2 = s ∨
      (postBooks s body nid now).2 = upsertBook s (postServerFields body nid now) := by
  simp only [postBooks]
  split
  · split
    · split
      · exact Or.inl rfl
      · exact Or.inr rfl
    · exact Or.inr rfl
  · exact Or.inl rfl

/-- The next state of a PUT is the old one or an upsert of the replacement
built from the stored record's `id` and `createdAt`. -/
theorem putBooks_snd (s : List BookObj) (i : String) (body : BookObj) (now : String) :
    (putBooks s i body now).2 = s ∨
      ∃ e, getBook s i = some e ∧
        (putBooks s i body now).2 =
          upsertBook s { body with id := e.id, createdAt := e.createdAt, updatedAt := some now } := by
  unfold putBooks
  cases hg : getBook s i with
  | none => simp [hg]
  | some e =>
    simp only [hg]
    split_ifs with hv
    · exact Or.inr ⟨e, rfl, rfl⟩
    · exact Or.inl rfl

/-- The next state of a PATCH is the old one or an upsert of the merged
record. -/
theorem patchBooks_snd (s : List BookObj) (i : String) (body : PatchBody) (now : String) :
    (patchBooks s i body now).2 = s ∨
      ∃ e, getBook s i = some e ∧
        (patchBooks s i body now).2 = upsertBook s (mergePatch e body now) := by
  unfold patchBooks
  cases hg : getBook s i with
  | none => simp [hg]
  | some e =>
    simp only [hg]
    split_ifs with hp hv
    · exact Or.inr ⟨e, rfl, rfl⟩
    · exact Or.inl rfl
    · exact Or.inl rfl

/-- The next state of an import request is the old one or the store-level
bulk import of the normalized records. -/
theorem importHandler_snd (s : List BookObj) (arr : List BookObj) (ids : Nat → String)
    (nowH nowS : String) :
    (importHandler s arr ids nowH nowS).2 = s ∨
      (importHandler s arr ids nowH nowS).2 =
        (importJson s (arr.enum.map fun p => normalizeImport p.2 (ids p.1) nowH) nowS true).2 := by
  simp only [importHandler]
  split
  · exact Or.inr rfl
  · exact Or.inl rfl

/-! Concrete inputs used by the witnesses below. `bookA` is the book of the
repository's smoke test. -/

/-- The smoke-test book payload. -/
def bookA : BookObj :=
  { title := some "The Art of Computer Programming",
    authors := some ["Donald E. Knuth"],
    isbn13 := some "978-0201558029",
    tags := some ["CS", "Algorithms"],
    readStatus := some "Reading" }

/-- A server timestamp. -/
def ts0 : String := "2024-01-01T00:00:00.000Z"

/-- A later server timestamp. -/
def ts1 : String := "2024-01-02T00:00:00.000Z"

/-- The record created by posting `bookA` at `ts0` with uuid `id-1`. -/
def storedA : BookObj := postServerFields bookA "id-1" ts0


/-! Claim theorems. -/

/-- C10: for a PUT or PATCH to an id with no stored book, the response is 404
regardless of the request body (existence is checked before any validation)
and the store is unchanged. -/
theorem missing_id_put_patch_404 (s : List BookObj) (i : String) (body : BookObj)
    (pb : PatchBody) (nowP nowQ : String) (h : getBook s i = none) :
    putBooks s i body nowP = (PutOut.notFound, s) ∧
    patchBooks s i pb nowQ = (PatchOut.notFound, s) ∧
    PutOut.notFound.status = 404 ∧ PatchOut.notFound.status = 404 := by
  refine ⟨?_, ?_, rfl, rfl⟩
  · simp only [putBooks, h]
  · simp only [patchBooks, h]

/-- Witness for C10 at a concrete store, with a body that would not even
validate. -/
theorem missing_id_put_patch_404_witness :
    getBook [storedA] "missing" = none ∧
    validateNewBook { rating := some 6 } = false ∧
    putBooks [storedA] "missing" { rating := some 6 } ts1 = (PutOut.notFound, [storedA]) ∧
    patchBooks [storedA] "missing" { rating := some 6 } ts1 = (PatchOut.notFound, [storedA]) :=
  ⟨by decide, by decide,
    (missing_id_put_patch_404 [storedA] "missing" { rating := some 6 }
      { rating := some 6 } ts1 ts1 (by decide)).1,
    (missing_id_put_patch_404 [storedA] "missing" { rating := some 6 }
      { rating := some 6 } ts1 ts1 (by decide)).2.1⟩

/-- C1: a PATCH whose body merged over the stored record fails full-book
validation answers 400 and leaves the stored collection unchanged; in
particular the book at that id is untouched. -/
theorem patch_invalid_merge_rejected (s : List BookObj) (i : String) (B : BookObj)
    (body : PatchBody) (now : String) (hB : getBook s i = some B)
    (hbad : validateNewBook (mergePatch B body now) = false) :
    (patchBooks s i body now).1 = PatchOut.invalid ∧
    (patchBooks s i body now).1.status = 400 ∧
    (patchBooks s i body now).2 = s ∧
    getBook (patchBooks s i body now).2 i = some B := by
  have heq : patchBooks s i body now = (PatchOut.invalid, s) := by
    simp only [patchBooks, hB]
    rcases Bool.eq_false_or_eq_true (validatePatchBook body) with hp | hp
    · rw [if_pos hp, if_neg (by simp [hbad])]
    · rw [if_neg (by simp [hp])]
  exact ⟨by rw [heq], by rw [heq]; rfl, by rw [heq], by rw [heq]; exact hB⟩

/-- Witness for C1: patching the stored smoke-test book with rating 6. -/
theorem patch_invalid_merge_rejected_witness :
    getBook [storedA] "id-1" = some storedA ∧
    validateNewBook (mergePatch storedA { rating := some 6 } ts1) = false ∧
    (patchBooks [storedA] "id-1" { rating := some 6 } ts1).1.status = 400 ∧
    (patchBooks [storedA] "id-1" { rating := some 6 } ts1).2 = [storedA] :=
  ⟨by decide, by decide,
    (patch_invalid_merge_rejected [storedA] "id-1" storedA { rating := some 6 } ts1
      (by decide) (by decide)).2.1,
    (patch_invalid_merge_rejected [storedA] "id-1" storedA { rating := some 6 } ts1
      (by decide) (by decide)).2.2.1⟩

/-- A merge with the empty patch body only refreshes `updatedAt`. -/
theorem mergePatch_emptyPatch (B : BookObj) (now : String) :
    mergePatch B emptyPatch now = { B with updatedAt := some now } := rfl

/-- Replacing `updatedAt` by a well-formed timestamp preserves full-book
validity. -/
theorem validateNewBook_updatedAt {B : BookObj} {now : String}
    (hB : validateNewBook B = true) (hn : isDateTimeFmt now = true) :
    validateNewBook { B with updatedAt := some now } = true := by
  simp only [validateNewBook, Bool.and_eq_true] at hB ⊢
  exact ⟨hB.1, by simpa [Option.all] using hn⟩

/-- C8: a PATCH with the empty JSON object body answers 200 and stores the
record unchanged except for a refreshed `updatedAt`. -/
theorem patch_empty_only_updatedAt (s : List BookObj) (i : String) (B : BookObj)
    (now : String) (hB : getBook s i = some B) (hV : validateNewBook B = true)
    (hn : isDateTimeFmt now = true) :
    (patchBooks s i emptyPatch now).1 = PatchOut.ok { B with updatedAt := some now } ∧
    (patchBooks s i emptyPatch now).1.status = 200 ∧
    (patchBooks s i emptyPatch now).2 = upsertBook s { B with updatedAt := some now } ∧
    getBook (patchBooks s i emptyPatch now).2 i = some { B with updatedAt := some now } := by
  have hvalid : validateNewBook { B with updatedAt := some now } = true :=
    validateNewBook_updatedAt hV hn
  have hpb : validatePatchBook emptyPatch = true := by decide
  have heq : patchBooks s i emptyPatch now =
      (PatchOut.ok { B with updatedAt := some now },
        upsertBook s { B with updatedAt := some now }) := by
    simp only [patchBooks, hB, hpb, if_true, mergePatch_emptyPatch, hvalid]
  have hid : ({ B with updatedAt := some now } : BookObj).id = some i := (getBook_mem hB).2
  refine ⟨by rw [heq], by rw [heq]; rfl, by rw [heq], ?_⟩
  rw [heq]
  exact getBook_upsertBook_self s hid

/-- Witness for C8 on the stored smoke-test book. -/
theorem patch_empty_only_updatedAt_witness :
    getBook [storedA] "id-1" = some storedA ∧
    (patchBooks [storedA] "id-1" emptyPatch ts1).1
      = PatchOut.ok { storedA with updatedAt := some ts1 } ∧
    (patchBooks [storedA] "id-1" emptyPatch ts1).2
      = [{ storedA with updatedAt := some ts1 }] :=
  ⟨by decide,
    (patch_empty_only_updatedAt [storedA] "id-1" storedA ts1
      (by decide) (by decide) (by decide)).1,
    by
      have h := (patch_empty_only_updatedAt [storedA] "id-1" storedA ts1
        (by decide) (by decide) (by decide)).2.2.1
      rw [h]
      decide⟩

/-- Inversion of a successful POST: the created record carries the server
fields over the body, and the next state is its upsert. -/
theorem postBooks_created_eq {s : List BookObj} {body : BookObj} {nid now : String}
    {b : BookObj} {s' : List BookObj}
    (h : postBooks s body nid now = (PostOut.created b, s')) :
    b = postServerFields body nid now ∧ s' = upsertBook s (postServerFields body nid now) := by
  simp only [postBooks] at h
  split at h
  · split at h
    · split at h
      · simp at h
      · simp only [Prod.mk.injEq, PostOut.created.injEq] at h
        exact ⟨h.1.symm, h.2.symm⟩
    · simp only [Prod.mk.injEq, PostOut.created.injEq] at h
      exact ⟨h.1.symm, h.2.symm⟩
  · simp at h

/-- Inversion of a successful PUT: some record was stored at the id, the
response record keeps its `id` and `createdAt` over the request body with a
fresh `updatedAt`, and the next state is its upsert. -/
theorem putBooks_ok_eq {s : List BookObj} {i : String} {body : BookObj} {now : String}
    {b : BookObj} {s' : List BookObj}
    (h : putBooks s i body now = (PutOut.ok b, s')) :
    ∃ e, getBook s i = some e ∧
      b = { body with id := e.id, createdAt := e.createdAt, updatedAt := some now } ∧
      s' = upsertBook s b := by
  cases hg : getBook s i with
  | none =>
    simp only [putBooks, hg] at h
    simp at h
  | some e =>
    simp only [putBooks, hg] at h
    split_ifs at h with hv
    · simp only [Prod.mk.injEq, PutOut.ok.injEq] at h
      refine ⟨e, rfl, h.1.symm, ?_⟩
      rw [← h.2, h.1]
    · simp at h

/-- Inversion of a successful PATCH: some record was stored at the id, the
response record is the merge of that record with the patch body, and the
next state is its upsert. -/
theorem patchBooks_ok_eq {s : List BookObj} {i : String} {pb : PatchBody} {now : String}
    {b : BookObj} {s' : List BookObj}
    (h : patchBooks s i pb now = (PatchOut.ok b, s')) :
    ∃ e, getBook s i = some e ∧ b = mergePatch e pb now ∧ s' = upsertBook s b := by
  cases hg : getBook s i with
  | none =>
    simp only [patchBooks, hg] at h
    simp at h
  | some e =>
    simp only [patchBooks, hg] at h
    split_ifs at h with hp hv
    · simp only [Prod.mk.injEq, PatchOut.ok.injEq] at h
      refine ⟨e, rfl, h.1.symm, ?_⟩
      rw [← h.2, h.1]
    · simp at h
    · simp at h

/-- C7: when a POST succeeds with a created record, that record is exactly
the request body extended with the server-assigned id and timestamps, and a
GET of the returned id finds it. -/
theorem post_then_get_roundtrip (s : List BookObj) (P : BookObj) (nid now : String)
    (b : BookObj) (s' : List BookObj)
    (h : postBooks s P nid now = (PostOut.created b, s')) :
    b = postServerFields P nid now ∧
    b.id = some nid ∧ b.createdAt = some now ∧ b.updatedAt = some now ∧
    getBook s' nid = some b := by
  obtain ⟨hb, hs⟩ := postBooks_created_eq h
  subst hb
  subst hs
  refine ⟨rfl, rfl, rfl, rfl, ?_⟩
  exact getBook_upsertBook_self s rfl

/-- Witness for C7: posting the smoke-test book into the empty store. -/
theorem post_then_get_roundtrip_witness :
    postBooks [] bookA "id-1" ts0 = (PostOut.created storedA, [storedA]) ∧
    storedA = postServerFields bookA "id-1" ts0 ∧
    getBook [storedA] "id-1" = some storedA :=
  ⟨by decide, (post_then_get_roundtrip [] bookA "id-1" ts0 storedA [storedA] (by decide)).1,
    (post_then_get_roundtrip [] bookA "id-1" ts0 storedA [storedA] (by decide)).2.2.2.2⟩

/-! Spec-side view of `Store.list` for the refinement claim C4: one guarded
pass predicate per filter stage, written from the spec sentence, and their
conjunction. -/

/-- Modelled from the spec: free-text stage — when `q` is present and
non-blank, a case-insensitive substring match over the concatenated text
fields; otherwise every row passes. -/
def qStagePass (q : Option String) (b : BookObj) : Bool :=
  match q with
  | some s => if s ≠ "" ∧ jsTrim s ≠ "" then qMatches s b else true
  | none => true

/-- Modelled from the spec: author substring stage. -/
def authorStagePass (author : Option String) (b : BookObj) : Bool :=
  match author with
  | some s => if s ≠ "" ∧ jsTrim s ≠ "" then authorMatches s b else true
  | none => true

/-- Modelled from the spec: exact tag stage (case-insensitive). -/
def tagStagePass (tag : Option String) (b : BookObj) : Bool :=
  match tag with
  | some s => if s ≠ "" ∧ jsTrim s ≠ "" then tagMatches s b else true
  | none => true

/-- Modelled from the spec: upper purchase-date bound stage (inclusive,
lexical; rows without a purchase date fail an active bound). -/
def beforeStagePass (bound : Option String) (b : BookObj) : Bool :=
  match bound with
  | some bd => if bd ≠ "" then beforePass bd b else true
  | none => true

/-- Modelled from the spec: lower purchase-date bound stage. -/
def afterStagePass (bound : Option String) (b : BookObj) : Bool :=
  match bound with
  | some ad => if ad ≠ "" then afterPass ad b else true
  | none => true

/-- Modelled from the spec: a row matches the list query when it passes all
four filters (free text, author, tag, purchase-date range). -/
def specListMatch (p : ListParams) (b : BookObj) : Bool :=
  qStagePass p.q b && authorStagePass p.author b && tagStagePass p.tag b &&
  beforeStagePass p.beforePurchaseDate b && afterStagePass p.afterPurchaseDate b

/-- The `q` stage equals one filter pass of its guarded predicate. -/
theorem qFilter_eq (q : Option String) (rows : List BookObj) :
    qFilter q rows = rows.filter (qStagePass q) := by
  cases q with
  | none =>
    simp only [qFilter]
    symm
    rw [List.filter_eq_self]
    intro b _
    simp [qStagePass]
  | some s =>
    by_cases hs : s ≠ "" ∧ jsTrim s ≠ ""
    · simp only [qFilter, if_pos hs]
      refine List.filter_congr ?_
      intro b _
      simp [qStagePass, hs]
    · simp only [qFilter, if_neg hs]
      symm
      rw [List.filter_eq_self]
      intro b _
      simp [qStagePass, hs]

/-- The `author` stage equals one filter pass of its guarded predicate. -/
theorem authorFilter_eq (author : Option String) (rows : List BookObj) :
    authorFilter author rows = rows.filter (authorStagePass author) := by
  cases author with
  | none =>
    simp only [authorFilter]
    symm
    rw [List.filter_eq_self]
    intro b _
    simp [authorStagePass]
  | some s =>
    by_cases hs : s ≠ "" ∧ jsTrim s ≠ ""
    · simp only [authorFilter, if_pos hs]
      refine List.filter_congr ?_
      intro b _
      simp [authorStagePass, hs]
    · simp only [authorFilter, if_neg hs]
      symm
      rw [List.filter_eq_self]
      intro b _
      simp [authorStagePass, hs]

/-- The `tag` stage equals one filter pass of its guarded predicate. -/
theorem tagFilter_eq (tag : Option String) (rows : List BookObj) :
    tagFilter tag rows = rows.filter (tagStagePass tag) := by
  cases tag with
  | none =>
    simp only [tagFilter]
    symm
    rw [List.filter_eq_self]
    intro b _
    simp [tagStagePass]
  | some s =>
    by_cases hs : s ≠ "" ∧ jsTrim s ≠ ""
    · simp only [tagFilter, if_pos hs]
      refine List.filter_congr ?_
      intro b _
      simp [tagStagePass, hs]
    · simp only [tagFilter, if_neg hs]
      symm
      rw [List.filter_eq_self]
      intro b _
      simp [tagStagePass, hs]

/-- The upper-bound date stage equals one filter pass of its guarded
predicate. -/
theorem beforeFilter_eq (bound : Option String) (rows : List BookObj) :
    beforeFilter bound rows = rows.filter (beforeStagePass bound) := by
  cases bound with
  | none =>
    simp only [beforeFilter]
    symm
    rw [List.filter_eq_self]
    intro b _
    simp [beforeStagePass]
  | some bd =>
    by_cases hs : bd ≠ ""
    · simp only [beforeFilter, if_pos hs]
      refine List.filter_congr ?_
      intro b _
      simp [beforeStagePass, hs]
    · simp only [beforeFilter, if_neg hs]
      symm
      rw [List.filter_eq_self]
      intro b _
      simp [beforeStagePass, hs]

/-- The lower-bound date stage equals one filter pass of its guarded
predicate. -/
theorem afterFilter_eq (bound : Option String) (rows : List BookObj) :
    afterFilter bound rows = rows.filter (afterStagePass bound) := by
  cases bound with
  | none =>
    simp only [afterFilter]
    symm
    rw [List.filter_eq_self]
    intro b _
    simp [afterStagePass]
  | some ad =>
    by_cases hs : ad ≠ ""
    · simp only [afterFilter, if_pos hs]
      refine List.filter_congr ?_
      intro b _
      simp [afterStagePass, hs]
    · simp only [afterFilter, if_neg hs]
      symm
      rw [List.filter_eq_self]
      intro b _
      simp [afterStagePass, hs]

/-- The five filter stages of `Store.list`, applied in source order, equal a
single filter by the conjunction of the spec's four match conditions. -/
theorem listBooks_filters (p : ListParams) (books : List BookObj) :
    afterFilter p.afterPurchaseDate (beforeFilter p.beforePurchaseDate (tagFilter p.tag
      (authorFilter p.author (qFilter p.q books)))) = books.filter (specListMatch p) := by
  rw [qFilter_eq, authorFilter_eq, tagFilter_eq, beforeFilter_eq, afterFilter_eq]
  simp only [List.filter_filter]
  apply List.filter_congr
  intro b _
  cases h1 : qStagePass p.q b <;> cases h2 : authorStagePass p.author b <;>
    cases h3 : tagStagePass p.tag b <;> cases h4 : beforeStagePass p.beforePurchaseDate b <;>
    cases h5 : afterStagePass p.afterPurchaseDate b <;>
    simp [specListMatch, h1, h2, h3, h4, h5]

/-- The sort pass is a permutation. -/
theorem sortRows_perm (o : Option String) (l : List BookObj) : (sortRows o l).Perm l :=
  List.perm_insertionSort _ l

/-- C4: `Store.list` filters (in the fixed order, fused here into the
conjunction `specListMatch`), then sorts, then slices by offset and limit,
and reports the pre-pagination match count as `total`; an active date bound
excludes rows without a purchase date and compares ISO strings lexically
with inclusive bounds. -/
theorem list_pipeline_spec (p : ListParams) (books : List BookObj) :
    listBooks p books =
      { total := (books.filter (specListMatch p)).length,
        items := ((sortRows p.sort (books.filter (specListMatch p))).drop p.offset).take
          p.limit } ∧
    (∀ b : BookObj, b.purchaseDate = none →
      ∀ bd : String, beforePass bd b = false ∧ afterPass bd b = false) ∧
    (∀ (b : BookObj) (pd bd : String), b.purchaseDate = some pd → pd ≠ "" →
      beforePass bd b = jsLeStr pd bd ∧ afterPass bd b = jsLeStr bd pd) ∧
    (∀ d : String, jsLeStr d d = true) := by
  refine ⟨?_, ?_, ?_, jsLeStr_refl⟩
  · have hfil := listBooks_filters p books
    simp only [listBooks]
    rw [hfil, (sortRows_perm p.sort (books.filter (specListMatch p))).length_eq]
  · intro b hb bd
    constructor <;> simp [beforePass, afterPass, strTruthy, hb]
  · intro b pd bd hb hpd
    constructor <;> simp [beforePass, afterPass, strTruthy, hb, hpd]

/-- Witness for C4: a concrete free-text query, and the exclusion of a row
without a purchase date from a date bound. -/
theorem list_pipeline_spec_witness :
    listBooks { q := some "algo", sort := some "title", limit := 5, offset := 0 } [storedA]
      = { total := 1, items := [storedA] } ∧
    beforePass "2024-01-01" storedA = false :=
  ⟨by
    rw [(list_pipeline_spec
      { q := some "algo", sort := some "title", limit := 5, offset := 0 } [storedA]).1]
    decide,
   ((list_pipeline_spec { limit := 5, offset := 0 } []).2.1 storedA (by decide)
     "2024-01-01").1⟩

/-- C5 (amended with pairwise-distinct records): two pages `limit=5,offset=0`
and `limit=5,offset=5` of the same query report the same total, concatenate
to the first ten elements of the full filtered sorted result, and share no
element. -/
theorem list_pagination_partition (p : ListParams) (books : List BookObj)
    (hnd : books.Nodup) :
    (listBooks { p with limit := 5, offset := 0 } books).total
      = (listBooks { p with limit := 5, offset := 5 } books).total ∧
    (listBooks { p with limit := 5, offset := 0 } books).items
        ++ (listBooks { p with limit := 5, offset := 5 } books).items
      = (sortRows p.sort (books.filter (specListMatch p))).take 10 ∧
    ∀ x ∈ (listBooks { p with limit := 5, offset := 0 } books).items,
      x ∉ (listBooks { p with limit := 5, offset := 5 } books).items := by
  have hfil := listBooks_filters p books
  have h0 : (listBooks { p with limit := 5, offset := 0 } books).items
      = (sortRows p.sort (books.filter (specListMatch p))).take 5 := by
    simp only [listBooks]
    rw [hfil, List.drop_zero]
  have h5 : (listBooks { p with limit := 5, offset := 5 } books).items
      = ((sortRows p.sort (books.filter (specListMatch p))).drop 5).take 5 := by
    simp only [listBooks]
    rw [hfil]
  have hsortnd : (sortRows p.sort (books.filter (specListMatch p))).Nodup :=
    (sortRows_perm p.sort (books.filter (specListMatch p))).symm.nodup
      (List.Nodup.filter _ hnd)
  refine ⟨rfl, ?_, ?_⟩
  · rw [h0, h5, show (10 : ℕ) = 5 + 5 from rfl, List.take_add]
  · intro x hx0 hx5
    rw [h0] at hx0
    rw [h5] at hx5
    exact List.disjoint_take_drop hsortnd (le_refl 5) hx0 (List.take_subset _ _ hx5)

/-- A record as pushed six times by one ISBN-less import request. -/
def dupBook : BookObj :=
  { title := some "Dup", id := some "same-id", createdAt := some ts0, updatedAt := some ts0 }

/-- Six identical stored records (reachable: `importJson` pushes each copy,
since the empty dedupe key skips deduplication). -/
def dupBooks : List BookObj := [dupBook, dupBook, dupBook, dupBook, dupBook, dupBook]

/-- Counterexample to C5 as stated: on a collection with duplicate records
the two pages do share an element. -/
theorem list_pagination_overlap_counterexample :
    ∃ x ∈ (listBooks { limit := 5, offset := 0 } dupBooks).items,
      x ∈ (listBooks { limit := 5, offset := 5 } dupBooks).items := by decide

/-- Witness for C5 on a two-record store. -/
theorem list_pagination_partition_witness :
    (listBooks { limit := 5, offset := 0 } [storedA, dupBook]).items
        ++ (listBooks { limit := 5, offset := 5 } [storedA, dupBook]).items
      = List.take 10
          (sortRows none ([storedA, dupBook].filter (specListMatch { limit := 5, offset := 0 }))) :=
  ((list_pagination_partition { limit := 5, offset := 0 } [storedA, dupBook]
    (by decide)).2.1)

/-- C6: a store-level import with dedupe enabled counts every incoming record
exactly once as created or updated, grows the books array by exactly the
created count (so an ISBN match never creates a duplicate record), touches an
existing entry only by merging — same id, fresh `updatedAt` — and, for a
single incoming record whose non-empty normalized key maps to id `i`, merges
it into the first record with id `i` via `mergeImported`, counting one
update and zero creates. -/
theorem import_dedupe_spec (s arr : List BookObj) (now : String) :
    (importJson s arr now true).1.created + (importJson s arr now true).1.updated
      = arr.length ∧
    (importJson s arr now true).2.length = s.length + (importJson s arr now true).1.created ∧
    (∀ j : Nat, j < s.length →
      (importJson s arr now true).2[j]? = s[j]? ∨
        ∃ a b, s[j]? = some a ∧ (importJson s arr now true).2[j]? = some b ∧
          b.id = a.id ∧ b.updatedAt = some now) ∧
    (∀ (inc : BookObj) (i : Option String), bookKey inc ≠ "" →
      mapGet (buildIsbnMap s) (bookKey inc) = some i →
      importJson s [inc] now true =
        ({ created := 0, updated := 1 },
          replaceFirst s (fun b => b.id = i) (fun e => mergeImported e inc i now))) := by
  refine ⟨?_, ?_, ?_, ?_⟩
  · have h := (importLoop_counts true now arr
      { books := s, byIsbn := buildIsbnMap s, created := 0, updated := 0 }).1
    simpa [importJson] using h
  · have h := (importLoop_counts true now arr
      { books := s, byIsbn := buildIsbnMap s, created := 0, updated := 0 }).2
    simpa [importJson] using h
  · intro j hj
    have h := importLoop_getElem? true now arr
      { books := s, byIsbn := buildIsbnMap s, created := 0, updated := 0 } j hj
    simpa [importJson] using h
  · intro inc i hk hmap
    have hc : importHit true (buildIsbnMap s) (bookKey inc) = true := by
      simp [importHit, hk, hmap]
    have hgd : (mapGet (buildIsbnMap s) (bookKey inc)).getD none = i := by
      rw [hmap]
      rfl
    simp only [importJson, importLoop]
    rw [importStep_hit hc]
    dsimp only
    rw [hgd]

/-- A record imported on top of `storedA` with a hyphen-variant of its ISBN. -/
def importedB : BookObj :=
  { title := some "TAOCP Volume 1", isbn13 := some "978-02015-58029",
    id := some "imp-1", createdAt := some ts1, updatedAt := some ts1,
    rating := some 5 }

/-- Witness for C6: importing `importedB` over the one-record store merges
into the stored record, counting one update. -/
theorem import_dedupe_spec_witness :
    importJson [storedA] [importedB] ts1 true =
      ({ created := 0, updated := 1 },
        replaceFirst [storedA] (fun b => b.id = some "id-1")
          (fun e => mergeImported e importedB (some "id-1") ts1)) ∧
    (importJson [storedA] [importedB] ts1 true).2
      = [mergeImported storedA importedB (some "id-1") ts1] := by
  have h := (import_dedupe_spec [storedA] [importedB] ts1).2.2.2 importedB (some "id-1")
    (by decide) (by decide)
  exact ⟨h, by rw [h]; decide⟩

/-- The POST duplicate scan sees the whole collection, title-sorted, whenever
the collection holds at most 50000 books. -/
theorem postScan_items (s : List BookObj) (hlen : s.length ≤ 50000) :
    (listBooks postScanParams s).items = sortRows (some "title") s := by
  simp only [listBooks, postScanParams, qFilter, authorFilter, tagFilter, beforeFilter,
    afterFilter]
  rw [List.drop_zero]
  exact List.take_of_length_le (by rw [(sortRows_perm (some "title") s).length_eq]; exact hlen)

/-- C3 (amended with the collection holding at most 50000 books): a valid
POST body whose normalized ISBN key is non-empty and matches some stored
book answers 409 carrying a matching book's id with the store unchanged,
and a valid body with no match (or an empty key) answers 201 with the
server-extended record. -/
theorem post_isbn_conflict (s : List BookObj) (body : BookObj) (nid now : String)
    (hlen : s.length ≤ 50000)
    (hv : validateNewBook (postServerFields body nid now) = true) :
    (bookKey (postServerFields body nid now) ≠ "" →
      (∃ d ∈ s, bookKey d = bookKey (postServerFields body nid now)) →
      ∃ d ∈ s, bookKey d = bookKey (postServerFields body nid now) ∧
        postBooks s body nid now = (PostOut.conflict d.id, s) ∧
        PostOut.status (PostOut.conflict d.id) = 409) ∧
    ((bookKey (postServerFields body nid now) = "" ∨
        ∀ d ∈ s, bookKey d ≠ bookKey (postServerFields body nid now)) →
      postBooks s body nid now =
        (PostOut.created (postServerFields body nid now),
          upsertBook s (postServerFields body nid now))) := by
  have hitems := postScan_items s hlen
  constructor
  · intro hk ⟨d0, hd0, hkey0⟩
    cases hfind : (listBooks postScanParams s).items.find?
        (fun b => bookKey b = bookKey (postServerFields body nid now)) with
    | none =>
      exfalso
      have hnone := List.find?_eq_none.mp hfind d0 ?_
      · exact hnone (by simpa using hkey0)
      · rw [hitems]
        exact ((sortRows_perm (some "title") s).mem_iff).mpr hd0
    | some dupe =>
      have hpred : bookKey dupe = bookKey (postServerFields body nid now) := by
        simpa using List.find?_some hfind
      have hmem : dupe ∈ s := by
        have h1 := List.mem_of_find?_eq_some hfind
        rw [hitems] at h1
        exact ((sortRows_perm (some "title") s).mem_iff).mp h1
      refine ⟨dupe, hmem, hpred, ?_, rfl⟩
      simp only [postBooks]
      rw [if_pos hv, if_pos hk, hfind]
  · intro hno
    rcases hno with hk0 | hnomatch
    · simp only [postBooks]
      rw [if_pos hv, if_neg (by simp [hk0])]
    · by_cases hk : bookKey (postServerFields body nid now) = ""
      · simp only [postBooks]
        rw [if_pos hv, if_neg (by simp [hk])]
      · have hfind : (listBooks postScanParams s).items.find?
            (fun b => bookKey b = bookKey (postServerFields body nid now)) = none := by
          apply List.find?_eq_none.mpr
          intro x hx
          rw [hitems] at hx
          have hxs : x ∈ s := ((sortRows_perm (some "title") s).mem_iff).mp hx
          simpa using hnomatch x hxs
        simp only [postBooks]
        rw [if_pos hv, if_pos hk, hfind]

/-- Witness for C3: the spec's concrete scenario — posting a second book with
a hyphen-variant of `storedA`'s isbn13 answers 409 with `existingId = id-1`,
and the first POST itself was a 201 create. -/
theorem post_isbn_conflict_witness :
    postBooks [storedA] { bookA with isbn13 := some "9-780-201558-029" } "id-2" ts1
      = (PostOut.conflict (some "id-1"), [storedA]) ∧
    postBooks [] bookA "id-1" ts0 = (PostOut.created storedA, [storedA]) := by
  constructor
  · have h := (post_isbn_conflict [storedA] { bookA with isbn13 := some "9-780-201558-029" }
      "id-2" ts1 (by decide) (by decide)).1 (by decide) ⟨storedA, List.mem_singleton_self _,
        by decide⟩
    obtain ⟨d, hd, -, heq, -⟩ := h
    rw [heq]
    have hds : d = storedA := List.mem_singleton.mp hd
    rw [hds]
    rfl
  · have h := (post_isbn_conflict [] bookA "id-1" ts0 (by decide) (by decide)).2
      (Or.inr (by intro d hd; simp at hd))
    rw [h]
    decide

/-- One of the 50000 filler records of the scan-cap counterexample. -/
def fillerBook : BookObj := { title := some "A", id := some "a" }

/-- The colliding record, sorted after every filler record by title. -/
def tailBook : BookObj :=
  { title := some "Z", id := some "z", isbn13 := some "9780000000002" }

/-- A collection of 50001 records whose only ISBN-carrying record sorts last
by title. -/
def bigBooks : List BookObj := List.replicate 50000 fillerBook ++ [tailBook]

/-- A POST body with the same normalized ISBN as `tailBook`. -/
def capBody : BookObj := { title := some "New", isbn13 := some "978-0000000002" }

/-- Counterexample to C3 as stated: with 50001 stored books, the duplicate
scan reads only the first 50000 title-sorted records, so a POST whose
normalized ISBN matches a stored book is answered 201, not 409. -/
theorem post_isbn_scan_cap_counterexample :
    (∃ d ∈ bigBooks, bookKey d = bookKey (postServerFields capBody "new-id" ts1) ∧
      bookKey d ≠ "") ∧
    (postBooks bigBooks capBody "new-id" ts1).1
      = PostOut.created (postServerFields capBody "new-id" ts1) := by
  constructor
  · exact ⟨tailBook, List.mem_append_right _ (List.mem_singleton_self _), by decide, by decide⟩
  · have hsorted : sortRows (some "title") bigBooks = bigBooks := by
      unfold sortRows
      apply List.Sorted.insertionSort_eq
      apply List.pairwise_append.mpr
      refine ⟨?_, ?_, ?_⟩
      · exact List.pairwise_replicate.mpr (Or.inr (by decide))
      · simp
      · intro x hx y hy
        rw [List.eq_of_mem_replicate hx, List.mem_singleton.mp hy]
        decide
    have hitems : (listBooks postScanParams bigBooks).items
        = List.replicate 50000 fillerBook := by
      simp only [listBooks, postScanParams, qFilter, authorFilter, tagFilter, beforeFilter,
        afterFilter]
      rw [List.drop_zero, hsorted]
      simp only [bigBooks]
      exact List.take_left' (List.length_replicate 50000 fillerBook)
    have hfind : (listBooks postScanParams bigBooks).items.find?
        (fun b => bookKey b = bookKey (postServerFields capBody "new-id" ts1)) = none := by
      rw [hitems]
      apply List.find?_eq_none.mpr
      intro x hx
      rw [List.eq_of_mem_replicate hx]
      decide
    simp only [postBooks]
    rw [if_pos (by decide : validateNewBook (postServerFields capBody "new-id" ts1) = true),
      if_pos (by decide : bookKey (postServerFields capBody "new-id" ts1) ≠ ""), hfind]

/-- The payload of an entry of `List.enum` is a member of the list. -/
theorem snd_mem_of_mem_enum {l : List BookObj} {p : ℕ × BookObj} (h : p ∈ l.enum) :
    p.2 ∈ l := by
  obtain ⟨i, x⟩ := p
  have h2 := List.mem_enumFrom h
  show x ∈ l
  rw [h2.2.2]
  exact List.getElem_mem _

/-- Under tame reachability every stored record has both system timestamps,
in order, and not in the future of the clock. -/
theorem tame_invariant : ∀ t s, ReachableTame t s → ∀ b ∈ s, goodStamps t b := by
  intro t s h
  induction h with
  | init t => intro b hb; simp at hb
  | post t t' s body nid hr hle ih =>
    intro b hb
    rcases postBooks_snd s body nid t' with heq | heq
    · rw [heq] at hb
      exact goodStamps_mono (ih b hb) hle
    · rw [heq] at hb
      rcases mem_upsertBook hb with hb' | rfl
      · exact goodStamps_mono (ih b hb') hle
      · exact ⟨t', t', rfl, rfl, jsLeStr_refl t', jsLeStr_refl t'⟩
  | put t t' s i body hr hle ih =>
    intro b hb
    rcases putBooks_snd s i body t' with heq | ⟨e, hge, heq⟩
    · rw [heq] at hb
      exact goodStamps_mono (ih b hb) hle
    · rw [heq] at hb
      rcases mem_upsertBook hb with hb' | rfl
      · exact goodStamps_mono (ih b hb') hle
      · obtain ⟨c, u, hc, hu, hcu, hut⟩ := ih e (getBook_mem hge).1
        exact ⟨c, t', hc, rfl, jsLeStr_trans (jsLeStr_trans hcu hut) hle, jsLeStr_refl t'⟩
  | patch t t' s i pb hr hle ih =>
    intro b hb
    rcases patchBooks_snd s i pb t' with heq | ⟨e, hge, heq⟩
    · rw [heq] at hb
      exact goodStamps_mono (ih b hb) hle
    · rw [heq] at hb
      rcases mem_upsertBook hb with hb' | rfl
      · exact goodStamps_mono (ih b hb') hle
      · obtain ⟨c, u, hc, hu, hcu, hut⟩ := ih e (getBook_mem hge).1
        exact ⟨c, t', hc, rfl, jsLeStr_trans (jsLeStr_trans hcu hut) hle, jsLeStr_refl t'⟩
  | del t t' s i hr hle ih =>
    intro b hb
    have hb' : b ∈ List.filter (fun x => x.id ≠ some i) s := hb
    exact goodStamps_mono (ih b (List.mem_of_mem_filter hb')) hle
  | imp t th ts s arr ids hr hle1 hle2 htame ih =>
    intro b hb
    rcases importHandler_snd s arr ids th ts with heq | heq
    · rw [heq] at hb
      exact goodStamps_mono (ih b hb) (jsLeStr_trans hle1 hle2)
    · rw [heq] at hb
      have hb' : b ∈ (importLoop true ts
          { books := s, byIsbn := buildIsbnMap s, created := 0, updated := 0 }
          (arr.enum.map fun p => normalizeImport p.2 (ids p.1) th)).books := hb
      refine importLoop_books_pred true ts (goodStamps ts) _ ?_ ?_ _ ?_ b hb'
      · intro inc hinc
        obtain ⟨pp, hpp, rfl⟩ := List.mem_map.mp hinc
        exact ⟨jsOrStr pp.2.createdAt th, th, rfl, rfl,
          htame pp.2 (snd_mem_of_mem_enum hpp), hle2⟩
      · intro e inc i he hincmem
        obtain ⟨pp, hpp, rfl⟩ := List.mem_map.mp hincmem
        exact ⟨jsOrStr pp.2.createdAt th, ts, rfl, rfl,
          jsLeStr_trans (htame pp.2 (snd_mem_of_mem_enum hpp)) hle2, jsLeStr_refl ts⟩
      · intro x hx
        exact goodStamps_mono (ih x hx) (jsLeStr_trans hle1 hle2)

/-- C2 (amended: the timestamp order invariant holds on states reachable
with imports whose effective client `createdAt` values do not exceed the
request time): every stored record then satisfies `createdAt ≤ updatedAt`;
PUT and PATCH never change the stored id sequence; import preserves the id
of every pre-existing position; and the system timestamps of POST, PUT and
PATCH responses are server-assigned — POST stamps both with the request
time, PUT and PATCH keep the stored `createdAt` and refresh `updatedAt` —
regardless of the request body. -/
theorem timestamps_and_id_invariants :
    (∀ t s, ReachableTame t s → ∀ b ∈ s,
      ∃ c u, b.createdAt = some c ∧ b.updatedAt = some u ∧ jsLeStr c u = true) ∧
    (∀ s i body now, ((putBooks s i body now).2).map (fun b => b.id) = s.map (fun b => b.id)) ∧
    (∀ s i pb now, ((patchBooks s i pb now).2).map (fun b => b.id) = s.map (fun b => b.id)) ∧
    (∀ s arr ids nowH nowS (j : ℕ), j < s.length →
      ∃ a v, s[j]? = some a ∧ (importHandler s arr ids nowH nowS).2[j]? = some v ∧
        v.id = a.id) ∧
    (∀ s body nid now b s', postBooks s body nid now = (PostOut.created b, s') →
      b.createdAt = some now ∧ b.updatedAt = some now) ∧
    (∀ s i body now b s', putBooks s i body now = (PutOut.ok b, s') →
      b.updatedAt = some now ∧ ∃ e, getBook s i = some e ∧ b.createdAt = e.createdAt) ∧
    (∀ s i pb now b s', patchBooks s i pb now = (PatchOut.ok b, s') →
      b.updatedAt = some now ∧ ∃ e, getBook s i = some e ∧ b.createdAt = e.createdAt) := by
  refine ⟨?_, ?_, ?_, ?_, ?_, ?_, ?_⟩
  · intro t s h b hb
    obtain ⟨c, u, hc, hu, hcu, _⟩ := tame_invariant t s h b hb
    exact ⟨c, u, hc, hu, hcu⟩
  · intro s i body now
    rcases putBooks_snd s i body now with heq | ⟨e, hge, heq⟩
    · rw [heq]
    · rw [heq]
      exact map_id_upsertBook ⟨e, (getBook_mem hge).1, rfl⟩
  · intro s i pb now
    rcases patchBooks_snd s i pb now with heq | ⟨e, hge, heq⟩
    · rw [heq]
    · rw [heq]
      exact map_id_upsertBook ⟨e, (getBook_mem hge).1, rfl⟩
  · intro s arr ids nowH nowS j hj
    rcases importHandler_snd s arr ids nowH nowS with heq | heq
    · rw [heq]
      exact ⟨s[j], s[j], List.getElem?_eq_getElem hj, List.getElem?_eq_getElem hj, rfl⟩
    · rw [heq]
      have h := importLoop_getElem? true nowS
        (arr.enum.map fun p => normalizeImport p.2 (ids p.1) nowH)
        { books := s, byIsbn := buildIsbnMap s, created := 0, updated := 0 } j hj
      rcases h with heq2 | ⟨a, v, ha, hv, hid, _⟩
      · exact ⟨s[j], s[j], List.getElem?_eq_getElem hj,
          heq2.trans (List.getElem?_eq_getElem hj), rfl⟩
      · exact ⟨a, v, ha, hv, hid⟩
  · intro s body nid now b s' h
    obtain ⟨hb, _⟩ := postBooks_created_eq h
    subst hb
    exact ⟨rfl, rfl⟩
  · intro s i body now b s' h
    obtain ⟨e, hge, hbe, _⟩ := putBooks_ok_eq h
    subst hbe
    exact ⟨rfl, e, hge, rfl⟩
  · intro s i pb now b s' h
    obtain ⟨e, hge, hbe, _⟩ := patchBooks_ok_eq h
    subst hbe
    exact ⟨rfl, e, hge, rfl⟩

/-- A client import record whose `createdAt` lies far in the future yet
passes the `date-time` format check. -/
def futureRaw : BookObj :=
  { title := some "Future", id := some "f-1",
    createdAt := some "2999-01-01T00:00:00.000Z" }

/-- The store produced by importing `futureRaw` at time `ts0`. -/
def badState : List BookObj := (importHandler [] [futureRaw] (fun _ => "gen-1") ts0 ts0).2

/-- Counterexample to C2 as stated: a reachable state (monotone clock, a
single import) holding a record whose `updatedAt` precedes `createdAt`. -/
theorem import_future_createdAt_counterexample :
    Reachable ts0 badState ∧
    ∃ b ∈ badState, ∃ c u, b.createdAt = some c ∧ b.updatedAt = some u ∧
      jsLeStr c u = false := by
  constructor
  · exact Reachable.imp ts0 ts0 ts0 [] [futureRaw] (fun _ => "gen-1")
      (Reachable.init ts0) (jsLeStr_refl ts0) (jsLeStr_refl ts0)
  · exact ⟨normalizeImport futureRaw "gen-1" ts0, by decide,
      "2999-01-01T00:00:00.000Z", ts0, by decide, by decide, by decide⟩

/-- Witness for C2: the invariant at a concrete tame-reachable one-record
state, and id preservation of a concrete PUT. -/
theorem timestamps_and_id_invariants_witness :
    (∃ c u, storedA.createdAt = some c ∧ storedA.updatedAt = some u ∧
      jsLeStr c u = true) ∧
    ((putBooks [storedA] "id-1" bookA ts1).2).map (fun b => b.id) = [some "id-1"] := by
  constructor
  · have hreach : ReachableTame ts0 [storedA] := by
      have h := ReachableTame.post ts0 ts0 [] bookA "id-1"
        (ReachableTame.init ts0) (jsLeStr_refl ts0)
      have he : (postBooks [] bookA "id-1" ts0).2 = [storedA] := by decide
      rwa [he] at h
    exact timestamps_and_id_invariants.1 ts0 [storedA] hreach storedA
      (List.mem_singleton_self _)
  · have h := timestamps_and_id_invariants.2.1 [storedA] "id-1" bookA ts1
    rw [h]
    decide

end LibraryApi
